import Mathlib

/-!
Verification of the interactive correspondence-selection state machine of
`HW1/findPoints.py` (class `PointSelector`).

The mutable session state of `PointSelector` is the pair of point lists
`pts_center` / `pts_other`, the integer flag `click_state` (0 = waiting for a
left-image click, 1 = waiting for a right-image click) and — implicitly —
whether the matplotlib figure is still open.  `onclick` (lines 43–67) and
`onkey` (lines 69–90) are the only mutators.  When the `num_points`-th pair is
committed, `onclick` calls `plt.close(self.fig)` (line 66): the canvas the
handlers are connected to is torn down, so no further mouse or key events are
delivered.  We model this with the boolean field `closed`; the raw handler
bodies (`onclickRaw`, `onkeyUndo`, `onkeyReset`) are the literal translations
of the Python code, and the delivered operations (`register_click`, `undoOp`,
`resetOp`) gate them on the figure being open.

Click coordinates (`event.xdata` / `event.ydata`) are real-valued; we model
them as rationals so that every definition stays executable and decidable.
The image widths `w1` (left) and the target pair count `N` (`num_points`) are
parameters.  Printing is ignored; `list.pop()` is modelled by `List.dropLast`
(in every state in which the handlers are actually run from the initial state,
the popped list is provably non-empty, so the partiality of Python's `pop`
never shows).
-/

namespace FindPoints

/-- A 2-D point, `(x, y)`, in the coordinate space of one source image. -/
abbrev Point := ℚ × ℚ

/-- The mutable state of a `PointSelector` session: the two point lists, the
`click_state` flag (0 = awaiting a left click, 1 = awaiting a right click,
exactly as the Python integer) and whether `plt.close` has run. -/
structure State where
  pts_center : List Point
  pts_other : List Point
  click_state : ℕ
  closed : Bool
deriving DecidableEq, Repr

/-- The initial state set up in `PointSelector.__init__` (lines 27–31):
both lists empty, `click_state = 0`, figure open. -/
def init : State := ⟨[], [], 0, false⟩

/-- The body of `PointSelector.onclick` (lines 49–67), for left image width
`w1` and target pair count `N` (`num_points`).  Branch 1: `click_state == 0
and x < w1` appends `(x, y)` to `pts_center` and sets `click_state = 1`.
Branch 2: `click_state == 1 and x >= w1` appends `(x - w1, y)` to `pts_other`
and sets `click_state = 0`; then, if both lists have length `>= N`, the
figure is closed (`plt.close`, line 66) and `save_results` runs.  Any other
combination falls through both branches and leaves the state unchanged. -/
def onclickRaw (w1 : ℚ) (N : ℕ) (x y : ℚ) (s : State) : State :=
  if s.click_state = 0 ∧ x < w1 then
    { s with pts_center := s.pts_center ++ [(x, y)], click_state := 1 }
  else if s.click_state = 1 ∧ w1 ≤ x then
    let s' := { s with pts_other := s.pts_other ++ [(x - w1, y)], click_state := 0 }
    if N ≤ s'.pts_center.length ∧ N ≤ s'.pts_other.length then
      { s' with closed := true }
    else s'
  else s

/-- The `ctrl+z` branch of `PointSelector.onkey` (lines 71–82).  If
`click_state == 1` and `pts_center` is non-empty, pop `pts_center` and set
`click_state = 0`; else if `click_state == 0` and `pts_other` is non-empty,
pop both lists (undo a full pair); else print "Nothing to undo" and change
nothing.  (`pop` is `dropLast`; in the second branch the Python code pops
`pts_center` unguarded, which is safe in every reachable state because there
`click_state == 0` forces the two lists to have equal length.) -/
def onkeyUndo (s : State) : State :=
  if s.click_state = 1 ∧ 0 < s.pts_center.length then
    { s with pts_center := s.pts_center.dropLast, click_state := 0 }
  else if s.click_state = 0 ∧ 0 < s.pts_other.length then
    { s with pts_center := s.pts_center.dropLast, pts_other := s.pts_other.dropLast }
  else s

/-- The `r` branch of `PointSelector.onkey` (lines 85–90): clear both lists
and set `click_state = 0`, unconditionally. -/
def onkeyReset (s : State) : State :=
  { s with pts_center := [], pts_other := [], click_state := 0 }

/-- A delivered click event: `onclick` runs only while the figure is open
(after `plt.close` on line 66 the canvas, and with it the `mpl_connect`
callbacks, is gone). -/
def register_click (w1 : ℚ) (N : ℕ) (x y : ℚ) (s : State) : State :=
  if s.closed then s else onclickRaw w1 N x y s

/-- A delivered `ctrl+z` key event (no delivery once the figure is closed). -/
def undoOp (s : State) : State :=
  if s.closed then s else onkeyUndo s

/-- A delivered `r` key event (no delivery once the figure is closed). -/
def resetOp (s : State) : State :=
  if s.closed then s else onkeyReset s

/-- One user-interface event: a mouse click at `(x, y)` on the composite, the
undo key combo, or the reset key. -/
inductive Op where
  | click (x y : ℚ)
  | undo
  | reset
deriving DecidableEq, Repr

/-- Dispatch one delivered event, as the matplotlib event loop does. -/
def step (w1 : ℚ) (N : ℕ) (s : State) : Op → State
  | .click x y => register_click w1 N x y s
  | .undo => undoOp s
  | .reset => resetOp s

/-- Run a sequence of events from a given state. -/
def runFrom (w1 : ℚ) (N : ℕ) (s : State) : List Op → State
  | [] => s
  | op :: ops => runFrom w1 N (step w1 N s op) ops

/-- Run a sequence of events from the initial state. -/
def run (w1 : ℚ) (N : ℕ) (ops : List Op) : State :=
  runFrom w1 N init ops

/-- A state is reachable when some event sequence from the initial state
produces it. -/
def reachable (w1 : ℚ) (N : ℕ) (s : State) : Prop :=
  ∃ ops : List Op, run w1 N ops = s

/-- The committed-pair count: an index is a committed pair when both lists
hold a point for it. -/
def committed (s : State) : ℕ :=
  min s.pts_center.length s.pts_other.length

/-- The committed pairs, in click order (`zip` truncates at the shorter
list, i.e. exactly at the committed-pair count). -/
def committedPairs (s : State) : List (Point × Point) :=
  s.pts_center.zip s.pts_other

/-- The persisted record written by `save_results` (lines 111–121): the two
point arrays of the JSON object.  The `image_pair` name string, the
float conversion (identity here) and the file, image and table output are
I/O and are not modelled. -/
structure SavedRecord where
  points_center : List Point
  points_other : List Point
deriving DecidableEq, Repr

/-- `PointSelector.save_results` (lines 111–121): the record copies
`pts_center` and `pts_other` wholesale, in order. -/
def save_results (s : State) : SavedRecord :=
  ⟨s.pts_center, s.pts_other⟩

/-- One drawn correspondence of `redraw` (lines 98–105): the 1-based pair
label and the two marker/label positions, with the right point shifted back
onto the composite by `w1` (`xR = ptR[0] + w1`). -/
def renderEntry (w1 : ℚ) (p : ℕ × Point × Point) : ℕ × Point × Point :=
  (p.1, p.2.1, (p.2.2.1 + w1, p.2.2.2))

/-- `PointSelector.redraw` (lines 92–109), modelled as the list of drawn
pair items produced by `enumerate(zip(pts_center, pts_other), start=1)`;
the matplotlib `plot`/`text` calls are modelled by the data they draw. -/
def renderedPairs (w1 : ℚ) (s : State) : List (ℕ × Point × Point) :=
  ((s.pts_center.zip s.pts_other).enumFrom 1).map (renderEntry w1)

/-- `PointSelector.get_points` (lines 155–158): both lists are returned in
full (the `np.array(·, dtype=np.float32)` conversion is the identity in the
model). -/
def get_points (s : State) : List Point × List Point :=
  (s.pts_center, s.pts_other)

/-- The reachability invariant of the session state: `click_state` is the
Python 0/1 flag; it is 1 exactly when a left point is dangling; a closed
figure is only ever left in `click_state = 0`; and while the figure is open
the committed-pair count has not yet passed the target (it reaches `N` only
on the closing transition itself, so an open state has fewer than `N`
committed pairs unless it has none at all, which matters only for `N = 0`). -/
structure Inv (N : ℕ) (s : State) : Prop where
  state01 : s.click_state = 0 ∨ s.click_state = 1
  len1 : s.click_state = 1 → s.pts_center.length = s.pts_other.length + 1
  len0 : s.click_state = 0 → s.pts_center.length = s.pts_other.length
  closed0 : s.closed = true → s.click_state = 0
  openLt : s.closed = false → committed s < N ∨ committed s = 0

theorem inv_init (N : ℕ) : Inv N init := by
  refine ⟨Or.inl rfl, ?_, ?_, ?_, ?_⟩ <;> simp [init, committed]

theorem inv_onclickRaw (w1 x y : ℚ) (N : ℕ) (s : State) (h : Inv N s)
    (ho : s.closed = false) : Inv N (onclickRaw w1 N x y s) := by
  obtain ⟨h01, h1, h0, hcl, hN⟩ := h
  have hNo := hN ho
  simp only [onclickRaw]
  split_ifs with c1 c2 c3
  · have hc := h0 c1.1
    refine ⟨Or.inr rfl, fun _ => ?_, fun hh => ?_, fun hh => ?_, fun _ => ?_⟩
    · simp only [List.length_append, List.length_singleton]
      omega
    · exact absurd hh (by simp)
    · exact absurd hh (by simp [ho])
    · simp only [committed, List.length_append, List.length_singleton] at hNo ⊢
      omega
  · have hc := h1 c2.1
    refine ⟨Or.inl rfl, fun hh => ?_, fun _ => ?_, fun _ => rfl, fun hh => ?_⟩
    · exact absurd hh (by simp)
    · simp only [List.length_append, List.length_singleton]
      omega
    · exact absurd hh (by simp)
  · have hc := h1 c2.1
    simp only [not_and, not_le, List.length_append, List.length_singleton] at c3
    refine ⟨Or.inl rfl, fun hh => ?_, fun _ => ?_, fun hh => ?_, fun _ => ?_⟩
    · exact absurd hh (by simp)
    · simp only [List.length_append, List.length_singleton]
      omega
    · exact absurd hh (by simp [ho])
    · simp only [committed, List.length_append, List.length_singleton]
      by_cases hle : N ≤ s.pts_center.length
      · have h2 := c3 hle
        omega
      · simp only [not_le] at hle
        omega
  · exact ⟨h01, h1, h0, hcl, hN⟩

theorem inv_onkeyUndo (N : ℕ) (s : State) (h : Inv N s)
    (ho : s.closed = false) : Inv N (onkeyUndo s) := by
  obtain ⟨h01, h1, h0, hcl, hN⟩ := h
  have hNo := hN ho
  simp only [onkeyUndo]
  split_ifs with c1 c2
  · have hc := h1 c1.1
    refine ⟨Or.inl rfl, fun hh => ?_, fun _ => ?_, fun hh => ?_, fun _ => ?_⟩
    · exact absurd hh (by simp)
    · simp only [List.length_dropLast]
      omega
    · exact absurd hh (by simp [ho])
    · simp only [committed, List.length_dropLast] at hNo ⊢
      omega
  · have hc := h0 c2.1
    have hpos := c2.2
    refine ⟨Or.inl c2.1, fun hh => ?_, fun _ => ?_, fun hh => ?_, fun _ => ?_⟩
    · rw [c2.1] at hh
      exact absurd hh (by simp)
    · simp only [List.length_dropLast]
      omega
    · exact absurd hh (by simp [ho])
    · simp only [committed, List.length_dropLast] at hNo ⊢
      omega
  · exact ⟨h01, h1, h0, hcl, hN⟩

theorem inv_onkeyReset (N : ℕ) (s : State) : Inv N (onkeyReset s) := by
  refine ⟨Or.inl rfl, fun hh => ?_, fun _ => rfl, fun _ => rfl, fun _ => ?_⟩
  · exact absurd hh (by simp [onkeyReset])
  · exact Or.inr rfl

theorem inv_step (w1 : ℚ) (N : ℕ) (s : State) (op : Op) (h : Inv N s) :
    Inv N (step w1 N s op) := by
  cases op with
  | click x y =>
    simp only [step, register_click]
    split_ifs with hc
    · exact h
    · exact inv_onclickRaw w1 x y N s h (by simpa using hc)
  | undo =>
    simp only [step, undoOp]
    split_ifs with hc
    · exact h
    · exact inv_onkeyUndo N s h (by simpa using hc)
  | reset =>
    simp only [step, resetOp]
    split_ifs with hc
    · exact h
    · exact inv_onkeyReset N s

theorem inv_runFrom (w1 : ℚ) (N : ℕ) (ops : List Op) (s : State) (h : Inv N s) :
    Inv N (runFrom w1 N s ops) := by
  induction ops generalizing s with
  | nil => exact h
  | cons op ops ih => exact ih _ (inv_step w1 N s op h)

theorem reachable_inv (w1 : ℚ) (N : ℕ) (s : State) (h : reachable w1 N s) :
    Inv N s := by
  obtain ⟨ops, rfl⟩ := h
  exact inv_runFrom w1 N ops init (inv_init N)

/-- While the figure is open a delivered click runs the `onclick` body. -/
theorem register_click_open (w1 : ℚ) (N : ℕ) (x y : ℚ) (s : State)
    (ho : s.closed = false) : register_click w1 N x y s = onclickRaw w1 N x y s := by
  simp [register_click, ho]

/-- While the figure is open a delivered `ctrl+z` runs the undo body. -/
theorem undoOp_open (s : State) (ho : s.closed = false) : undoOp s = onkeyUndo s := by
  simp [undoOp, ho]

/-- Unfolding of the first `onclick` branch: cursor on the left half. -/
theorem onclickRaw_left (w1 x y : ℚ) (N : ℕ) (s : State)
    (h0 : s.click_state = 0) (hx : x < w1) :
    onclickRaw w1 N x y s =
      { s with pts_center := s.pts_center ++ [(x, y)], click_state := 1 } := by
  simp only [onclickRaw]
  rw [if_pos ⟨h0, hx⟩]

/-- Unfolding of the second `onclick` branch: cursor on the right half.  The
point lists and the new cursor do not depend on whether the inner
`num_points` test closes the figure. -/
theorem onclickRaw_right (w1 x y : ℚ) (N : ℕ) (s : State)
    (h1 : s.click_state = 1) (hx : w1 ≤ x) :
    (onclickRaw w1 N x y s).pts_center = s.pts_center ∧
    (onclickRaw w1 N x y s).pts_other = s.pts_other ++ [(x - w1, y)] ∧
    (onclickRaw w1 N x y s).click_state = 0 := by
  simp only [onclickRaw]
  rw [if_neg (by rw [h1]; simp)]
  rw [if_pos ⟨h1, hx⟩]
  split_ifs <;> exact ⟨rfl, rfl, rfl⟩

/-- A click whose half disagrees with the cursor falls through both branches
of the `onclick` body. -/
theorem onclickRaw_wrong_half (w1 x y : ℚ) (N : ℕ) (s : State)
    (h : (s.click_state = 0 ∧ w1 ≤ x) ∨ (s.click_state = 1 ∧ x < w1)) :
    onclickRaw w1 N x y s = s := by
  simp only [onclickRaw]
  rcases h with ⟨h0, hx⟩ | ⟨h1, hx⟩
  · rw [if_neg (fun hco => absurd hco.2 (not_lt.mpr hx))]
    rw [if_neg (by rw [h0]; simp)]
  · rw [if_neg (by rw [h1]; simp)]
    rw [if_neg (fun hco => absurd hco.2 (not_le.mpr hx))]

/-- In a reachable state with a dangling left point the figure is still
open (the figure is only closed right after a pair is committed, which
leaves `click_state = 0`). -/
theorem open_of_state1 (w1 : ℚ) (N : ℕ) (s : State) (hr : reachable w1 N s)
    (h1 : s.click_state = 1) : s.closed = false := by
  cases hc : s.closed
  · rfl
  · have h0 := (reachable_inv w1 N s hr).closed0 hc
    rw [h0] at h1
    exact absurd h1 (by simp)

/-- C1: for every sequence of operations applied from the initial state,
after every operation `|left_points| - |right_points| ∈ {0, 1}` (stated as
the two inequalities over natural lengths) and the cursor is AWAITING_RIGHT
(`click_state = 1`) exactly when `|left_points| > |right_points|`. -/
theorem C1_length_parity_invariant (w1 : ℚ) (N : ℕ) (ops : List Op) :
    (run w1 N ops).pts_other.length ≤ (run w1 N ops).pts_center.length ∧
    (run w1 N ops).pts_center.length ≤ (run w1 N ops).pts_other.length + 1 ∧
    ((run w1 N ops).click_state = 1 ↔
      (run w1 N ops).pts_other.length < (run w1 N ops).pts_center.length) := by
  obtain ⟨h01, h1, h0, -, -⟩ := reachable_inv w1 N (run w1 N ops) ⟨ops, rfl⟩
  refine ⟨?_, ?_, ?_⟩ <;> omega

/-- C3: once the committed-pair count has reached the configured target `N`
(so at least one pair has been committed — the `N`-th pair's commit is the
transition that closes the figure), every further delivered click leaves the
state unchanged, because `plt.close` has torn down the event surface. -/
theorem C3_terminal_click_ignored (w1 : ℚ) (N : ℕ) (x y : ℚ) (s : State)
    (hr : reachable w1 N s) (hc1 : 1 ≤ committed s) (hcN : N ≤ committed s) :
    register_click w1 N x y s = s := by
  have hInv := reachable_inv w1 N s hr
  have hcl : s.closed = true := by
    cases hc : s.closed
    · rcases hInv.openLt hc with h | h <;> omega
    · rfl
  simp [register_click, hcl]

/-- Witness for C3 at `w1 = 1`, `N = 1`: after the two clicks that commit
the single required pair, a further click at `(5, 5)` changes nothing. -/
theorem C3_witness :
    register_click 1 1 5 5 (⟨[(0, 0)], [(0, 0)], 0, true⟩ : State) =
      (⟨[(0, 0)], [(0, 0)], 0, true⟩ : State) :=
  C3_terminal_click_ignored 1 1 5 5 _
    ⟨[Op.click 0 0, Op.click 1 0],
      by norm_num [run, runFrom, step, register_click, onclickRaw, init]⟩
    (by norm_num [committed]) (by norm_num [committed])

/-- C5: a click whose half is inconsistent with the cursor (left half while
awaiting a right point, or right half while awaiting a left point) leaves
the whole state unchanged; no exception is modelled because the handler is a
total function that merely falls through both branches. -/
theorem C5_wrong_half_noop (w1 : ℚ) (N : ℕ) (x y : ℚ) (s : State)
    (_hr : reachable w1 N s)
    (h : (s.click_state = 0 ∧ w1 ≤ x) ∨ (s.click_state = 1 ∧ x < w1)) :
    register_click w1 N x y s = s := by
  rcases hc : s.closed with - | -
  · rw [register_click_open w1 N x y s hc]
    exact onclickRaw_wrong_half w1 x y N s h
  · simp [register_click, hc]

/-- Witness for C5: from the initial state (awaiting a left point), a click
on the right half (`x = 1 = w1`) is ignored. -/
theorem C5_witness : register_click 1 6 1 0 init = init :=
  C5_wrong_half_noop 1 6 1 0 init ⟨[], rfl⟩ (Or.inl ⟨rfl, by norm_num⟩)

/-- C7: `reset()` (the `r` key handler, lines 85–90) yields empty point
lists and cursor AWAITING_LEFT from every prior state. -/
theorem C7_reset_clears (s : State) :
    (onkeyReset s).pts_center = [] ∧ (onkeyReset s).pts_other = [] ∧
    (onkeyReset s).click_state = 0 :=
  ⟨rfl, rfl, rfl⟩

/-- C4: behaviour of a delivered `ctrl+z` in a non-terminal (open) reachable
state, by cursor case: with a dangling left point it removes exactly that
point and returns the cursor to AWAITING_LEFT; with no dangling point and at
least one committed pair it removes the last full pair and the cursor stays
AWAITING_LEFT; with nothing recorded it is a no-op (and, the handler being a
total function, no exception occurs). -/
theorem C4_undo_cases (w1 : ℚ) (N : ℕ) (s : State)
    (hr : reachable w1 N s) (ho : s.closed = false) :
    (s.click_state = 1 →
      undoOp s = { s with pts_center := s.pts_center.dropLast, click_state := 0 }) ∧
    (s.click_state = 0 → 0 < committed s →
      undoOp s = { s with pts_center := s.pts_center.dropLast,
                          pts_other := s.pts_other.dropLast }) ∧
    (s.click_state = 0 → s.pts_center = [] → s.pts_other = [] → undoOp s = s) := by
  have hInv := reachable_inv w1 N s hr
  rw [undoOp_open s ho]
  refine ⟨fun h1 => ?_, fun h0 hp => ?_, fun h0 hce hoe => ?_⟩
  · have hlen := hInv.len1 h1
    have hpos : 0 < s.pts_center.length := by omega
    rw [onkeyUndo, if_pos ⟨h1, hpos⟩]
  · have hpos : 0 < s.pts_other.length := by
      simp only [committed] at hp
      omega
    rw [onkeyUndo, if_neg (by rw [h0]; simp), if_pos ⟨h0, hpos⟩]
  · rw [onkeyUndo, if_neg (by rw [h0]; simp), if_neg (by rw [hoe]; simp)]

/-- Witness for C4 (first cursor case) at `w1 = 1`, `N = 6`: undoing right
after the single left click removes that left point. -/
theorem C4_witness : undoOp (⟨[(0, 0)], [], 1, false⟩ : State) =
    (⟨[], [], 0, false⟩ : State) := by
  have h := (C4_undo_cases 1 6 (⟨[(0, 0)], [], 1, false⟩ : State)
    ⟨[Op.click 0 0], by decide⟩ rfl).1 rfl
  exact h.trans (by decide)

/-- C2 fails on the code as stated: the reachable, non-initial state `s`
reached by one left click at `(0, 0)` (with `w1 = 1`, `N = 6`) is not
restored by `undo()` after the right click at `(1, 0)`: undo is taken in
`click_state = 0` and removes the whole pair, leaving both lists empty
rather than the dangling left point of `s`. -/
theorem C2_counterexample :
    run 1 6 [Op.click 0 0] ≠ init ∧
    undoOp (register_click 1 6 1 0 (run 1 6 [Op.click 0 0])) ≠
      run 1 6 [Op.click 0 0] := by
  constructor
  · decide
  · norm_num [run, runFrom, step, register_click, onclickRaw, undoOp, onkeyUndo, init]

/-- C2 (amended): `undo()` immediately after a `register_click` that is
accepted as a left-image point restores the exact prior triple; and when the
prior state is the empty/initial one and the click is ignored (right half
while awaiting a left point), both the click and the subsequent `undo()` are
no-ops.  (After a pair-committing click, by contrast, `undo()` removes the
whole pair — see `C2_counterexample`.) -/
theorem C2_amended_left_click_inverse (w1 : ℚ) (N : ℕ) (x y : ℚ) (s : State)
    (ho : s.closed = false) :
    (s.click_state = 0 → x < w1 → undoOp (register_click w1 N x y s) = s) ∧
    (s.click_state = 0 → w1 ≤ x → s.pts_center = [] → s.pts_other = [] →
      register_click w1 N x y s = s ∧ undoOp (register_click w1 N x y s) = s) := by
  constructor
  · intro h0 hx
    rw [register_click_open w1 N x y s ho, onclickRaw_left w1 x y N s h0 hx]
    rw [undoOp_open _ (by simpa using ho), onkeyUndo, if_pos ⟨rfl, by simp⟩]
    cases s with
    | mk c o cs cl =>
      simp only at h0 ⊢
      rw [h0, List.dropLast_concat]
  · intro h0 hx hce hoe
    have hnoop : register_click w1 N x y s = s := by
      rw [register_click_open w1 N x y s ho]
      exact onclickRaw_wrong_half w1 x y N s (Or.inl ⟨h0, hx⟩)
    refine ⟨hnoop, ?_⟩
    rw [hnoop, undoOp_open s ho, onkeyUndo]
    rw [if_neg (by rw [h0]; simp), if_neg (by rw [hoe]; simp)]

/-- Witness for C2 (amended), first part: with `w1 = 1`, `N = 6`, a left
click at `(0, 0)` from the initial state followed by `undo()` returns to the
initial state. -/
theorem C2_amended_witness : undoOp (register_click 1 6 0 0 init) = init :=
  (C2_amended_left_click_inverse 1 6 0 0 init rfl).1 rfl (by norm_num)

/-- C6: a click at exactly `x = w1` is classified as a right-half click
(`x < w1` fails, `x >= w1` holds): with a dangling left point it appends
`(x - w1, y) = (0, y)` to `pts_other` and leaves `pts_center` unchanged;
while awaiting a left point it is ignored as a wrong-half click.  In no case
is it appended to `pts_center`. -/
theorem C6_boundary_right (w1 : ℚ) (N : ℕ) (y : ℚ) (s : State)
    (hr : reachable w1 N s) :
    (s.click_state = 1 →
      (register_click w1 N w1 y s).pts_center = s.pts_center ∧
      (register_click w1 N w1 y s).pts_other = s.pts_other ++ [(0, y)]) ∧
    (s.click_state = 0 → register_click w1 N w1 y s = s) := by
  constructor
  · intro h1
    have ho := open_of_state1 w1 N s hr h1
    rw [register_click_open w1 N w1 y s ho]
    obtain ⟨hc, hoth, -⟩ := onclickRaw_right w1 w1 y N s h1 (le_refl w1)
    rw [sub_self] at hoth
    exact ⟨hc, hoth⟩
  · intro h0
    exact C5_wrong_half_noop w1 N w1 y s hr (Or.inl ⟨h0, le_refl w1⟩)

/-- Witness for C6 at `w1 = 1`, `N = 6`, in the state with one dangling left
point: the boundary click `(1, 7)` appends `(0, 7)` to `pts_other`. -/
theorem C6_witness :
    (register_click 1 6 1 7 (⟨[(0, 0)], [], 1, false⟩ : State)).pts_center =
      [(0, 0)] ∧
    (register_click 1 6 1 7 (⟨[(0, 0)], [], 1, false⟩ : State)).pts_other =
      [(0, 7)] :=
  (C6_boundary_right 1 6 7 (⟨[(0, 0)], [], 1, false⟩ : State)
    ⟨[Op.click 0 0], by decide⟩).1 rfl

/-- Zipping two lists only ever consumes the first
`min`-of-the-lengths elements of each. -/
theorem zip_eq_zip_take {α β : Type} (l : List α) (r : List β) :
    l.zip r = (l.take (min l.length r.length)).zip
      (r.take (min l.length r.length)) := by
  induction l generalizing r with
  | nil => simp
  | cons a l ih =>
    cases r with
    | nil => simp
    | cons b r =>
      simp only [List.zip_cons_cons, List.length_cons, Nat.succ_min_succ,
        List.take_succ_cons]
      exact congrArg (List.cons (a, b)) (ih r)

/-- C8: whenever the record is written — i.e. on the click transition that
closes the figure, which is exactly when the committed-pair count reaches
`N` — its two arrays have equal length (no dangling unpaired left point is
included) and their index-wise pairs are exactly the committed pairs in
click order, entry `i` of each array forming pair `i + 1`. -/
theorem C8_saved_record (w1 : ℚ) (N : ℕ) (x y : ℚ) (s : State)
    (hr : reachable w1 N s) (ho : s.closed = false)
    (ht : (register_click w1 N x y s).closed = true) :
    (save_results (register_click w1 N x y s)).points_center.length =
      (save_results (register_click w1 N x y s)).points_other.length ∧
    (save_results (register_click w1 N x y s)).points_center.zip
        (save_results (register_click w1 N x y s)).points_other =
      committedPairs (register_click w1 N x y s) := by
  have hInv := reachable_inv w1 N s hr
  rw [register_click_open w1 N x y s ho] at ht ⊢
  simp only [onclickRaw] at ht ⊢
  split_ifs at ht ⊢ with c1 c2 c3
  · simp [ho] at ht
  · have hlen := hInv.len1 c2.1
    refine ⟨?_, rfl⟩
    simp only [save_results, List.length_append, List.length_singleton]
    omega
  · simp [ho] at ht
  · simp [ho] at ht

/-- Witness for C8 at `w1 = 1`, `N = 1`: committing the single required
pair writes a record with two arrays of length one that zip to the one
committed pair. -/
theorem C8_witness :
    (save_results (register_click 1 1 1 0
        (⟨[(0, 0)], [], 1, false⟩ : State))).points_center.length =
      (save_results (register_click 1 1 1 0
        (⟨[(0, 0)], [], 1, false⟩ : State))).points_other.length ∧
    (save_results (register_click 1 1 1 0
        (⟨[(0, 0)], [], 1, false⟩ : State))).points_center.zip
        (save_results (register_click 1 1 1 0
          (⟨[(0, 0)], [], 1, false⟩ : State))).points_other =
      committedPairs (register_click 1 1 1 0
        (⟨[(0, 0)], [], 1, false⟩ : State)) :=
  C8_saved_record 1 1 1 0 _ ⟨[Op.click 0 0], by decide⟩ rfl
    (by norm_num [register_click, onclickRaw])

/-- C9: `redraw` draws exactly the committed pairs — the first
`min |pts_center| |pts_other|` elements of each list, labelled `1..m` in
click order — so a dangling unpaired left point (present when
`click_state = 1`) receives no marker, line or label. -/
theorem C9_redraw_committed_only (w1 : ℚ) (s : State) :
    renderedPairs w1 s =
      (((s.pts_center.take (min s.pts_center.length s.pts_other.length)).zip
        (s.pts_other.take
          (min s.pts_center.length s.pts_other.length))).enumFrom 1).map
        (renderEntry w1) ∧
    (renderedPairs w1 s).length =
      min s.pts_center.length s.pts_other.length := by
  constructor
  · rw [renderedPairs, ← zip_eq_zip_take]
  · simp [renderedPairs]

/-- C10: `get_points` returns the full contents of both lists as recorded,
including any dangling unpaired left point: in every reachable state with
`click_state = 1` (the cursor in which the operator may close the display)
the first returned array is exactly one element longer than the second. -/
theorem C10_get_points_full (w1 : ℚ) (N : ℕ) (s : State)
    (hr : reachable w1 N s) (h1 : s.click_state = 1) :
    get_points s = (s.pts_center, s.pts_other) ∧
    (get_points s).1.length = (get_points s).2.length + 1 :=
  ⟨rfl, (reachable_inv w1 N s hr).len1 h1⟩

/-- Witness for C10 after a single left click (`w1 = 1`, `N = 6`). -/
theorem C10_witness :
    get_points (⟨[(0, 0)], [], 1, false⟩ : State) = ([(0, 0)], []) ∧
    (get_points (⟨[(0, 0)], [], 1, false⟩ : State)).1.length =
      (get_points (⟨[(0, 0)], [], 1, false⟩ : State)).2.length + 1 :=
  C10_get_points_full 1 6 _ ⟨[Op.click 0 0], by decide⟩ rfl

end FindPoints
